import Mathlib

/-!
Verification of the ebiten text package core: the multi-source fallback
splitter (MultiFace), the single-source glyph positioner (StdFace), and the
glyph-image cache contract.

Modelling conventions:
* Go `float64` values are modelled as `ℚ` (the claims under study are order
  and additivity facts, not floating-point rounding facts).
* `fixed.Int26_6` is modelled as `Int` holding the raw 26.6 fixed-point value.
  Go's `x >> 6` (`Floor`), `x & 63` and `x &^ 63` on two's-complement int32
  are floor division by 64, the non-negative remainder mod 64, and rounding
  down to a multiple of 64; for the positive divisor 64 these are `Int.ediv`
  and `Int.emod`.
* Go strings are modelled as `List Char` (sequences of runes); byte indices
  are recovered through `Char.utf8Size`, which agrees with Go's UTF-8
  encoding length for every rune.
* The external rasterizer is out of scope (spec section 6): a produced glyph
  image is modelled as the record of the inputs that determine the bitmap.
-/

namespace EbitenText

/-- Go `fixed.Int26_6.Floor()`: arithmetic shift right by 6, i.e. floor
division by 64 (`Int.ediv` is floor division for a positive divisor). -/
def floor26_6 (x : Int) : Int := x / 64

/-- Go `fixed.Int26_6.Ceil()`: `(x + 63) >> 6`. -/
def ceil26_6 (x : Int) : Int := (x + 63) / 64

/-- Go `x & ((1 << 6) - 1)` on `fixed.Int26_6`: the value's fractional part,
in `[0, 64)`. -/
def and63 (x : Int) : Int := x % 64

/-- Go `x &^ ((1 << 6) - 1)` on `fixed.Int26_6`: clear the six fractional
bits, rounding down to a whole pixel. -/
def andNot63 (x : Int) : Int := x - x % 64

/-- Go `fixed26_6ToFloat64`: exact division by 64. -/
def fixed26_6ToFloat64 (x : Int) : ℚ := (x : ℚ) / 64

/-- Go `float64ToFixed26_6`: `fixed.Int26_6(x * 64)`, a conversion that
truncates toward zero, as Go float-to-int conversions do. -/
def float64ToFixed26_6 (x : ℚ) : Int := Int.tdiv (x * 64).num ((x * 64).den : Int)

/-- Writing directions of the text package. -/
inductive Direction where
  | LeftToRight
  | RightToLeft
  | TopToBottom
deriving DecidableEq

/-- Go `Direction.isHorizontal`. -/
def Direction.isHorizontal : Direction → Bool
  | .LeftToRight => true
  | .RightToLeft => true
  | .TopToBottom => false

/-- The `Metrics` record of the text package (float64 fields). -/
structure Metrics where
  Height : ℚ
  HAscent : ℚ
  HDescent : ℚ
  Width : ℚ
  VAscent : ℚ
  VDescent : ℚ
deriving DecidableEq

/-- Go's zero value of `Metrics`, the initial accumulator of
`MultiFace.Metrics`. -/
def zeroMetrics : Metrics := ⟨0, 0, 0, 0, 0, 0⟩

/-- The ink bounding box `fixed.Rectangle26_6` reported by a font source. -/
structure Rect26_6 where
  minX : Int
  minY : Int
  maxX : Int
  maxY : Int
deriving DecidableEq

/-- A rasterized glyph image handle: rasterization itself is external, so an
image is modelled by the inputs that determine the bitmap (rune, sub-pixel
offset, ink bounds). -/
structure GImg where
  rune : Char
  subX : Int
  subY : Int
  bounds : Rect26_6
deriving DecidableEq

/-- The `Glyph` placement record. `Image` is `none` exactly where Go's
`*ebiten.Image` is nil. `X` and `Y` are float64 in Go but always hold the
integer values `imgX`, `imgY`, so they are modelled as `Int`. -/
structure Glyph where
  StartIndexInBytes : Int
  EndIndexInBytes : Int
  Image : Option GImg
  X : Int
  Y : Int
deriving DecidableEq

/-- `vector.Path` contents are out of scope; a path is modelled as the list
of its accumulated segments. -/
abbrev Path := List (ℚ × ℚ)

/-- The `Face` capability set (spec section 3), as consumed by `MultiFace`:
a record of the operation results a wrapped font source provides. -/
structure Face where
  Metrics : EbitenText.Metrics
  advance : List Char → ℚ
  hasGlyph : Char → Bool
  appendGlyphsForLine : List Glyph → List Char → Int → ℚ → ℚ → List Glyph
  appendVectorPathForLine : Path → List Char → ℚ → ℚ → Path
  direction : Direction

/-- `MultiFace` is an ordered list of faces, highest priority first. -/
abbrev MultiFace := List Face

/-- Byte length of a rune sequence under UTF-8, Go's `len(string)`. -/
def byteLen (text : List Char) : Nat := (text.map Char.utf8Size).sum

/-- Each rune of the text paired with its byte offset, starting at `i`:
the pairs produced by Go's `for i, r := range text`. -/
def charsWithPosAux : Nat → List Char → List (Nat × Char)
  | _, [] => []
  | i, c :: cs => (i, c) :: charsWithPosAux (i + c.utf8Size) cs

/-- Go string slicing `text[s:e]` decoded back to runes, for slice bounds
lying on rune boundaries (the only way the package slices). -/
def byteSlice (text : List Char) (s e : Nat) : List Char :=
  ((charsWithPosAux 0 text).filter (fun p => decide (s ≤ p.1) && decide (p.1 < e))).map Prod.snd

/-- The `textChunk` record of `MultiFace.splitText`. Go uses `int` for all
three fields; the byte indices are always non-negative, so they are `Nat`,
while `faceIndex` keeps the sentinel value `-1` and stays `Int`. -/
structure TextChunk where
  textStartIndex : Nat
  textEndIndex : Nat
  faceIndex : Int
deriving DecidableEq

/-- The face-selection loop of `splitText`: the index of the first face
with `hasGlyph r`, scanning from index `i`; `-1` when none qualifies. -/
def firstFaceIndexAux : Nat → List Face → Char → Int
  | _, [], _ => -1
  | i, f :: fs, r => if f.hasGlyph r then Int.ofNat i else firstFaceIndexAux (i + 1) fs r

/-- Index of the first face of `m` that has a glyph for `r`; `-1` if none. -/
def firstFaceIndex (m : MultiFace) (r : Char) : Int := firstFaceIndexAux 0 m r

/-- One iteration of the `splitText` loop body for rune `r`. The accumulator
holds the chunks most-recent-first (Go appends at the end and mutates
`chunks[len(chunks)-1]`; here the open chunk is the head). -/
def splitTextStep (m : MultiFace) (chunks : List TextChunk) (r : Char) : List TextChunk :=
  let fi := firstFaceIndex m r
  let l := r.utf8Size
  match chunks with
  | [] => [⟨0, l, fi⟩]
  | c :: rest =>
    if c.faceIndex = fi then
      ⟨c.textStartIndex, c.textEndIndex + l, c.faceIndex⟩ :: rest
    else
      ⟨c.textEndIndex, c.textEndIndex + l, fi⟩ :: c :: rest

/-- Go `MultiFace.splitText`: one greedy left-to-right pass over the runes,
then restore source order. -/
def MultiFace.splitText (m : MultiFace) (text : List Char) : List TextChunk :=
  (text.foldl (splitTextStep m) []).reverse

/-- A face with Go zero-value behaviour, used as the fallback of `faceAt`. -/
def zeroFace : Face :=
  { Metrics := zeroMetrics
    advance := fun _ => 0
    hasGlyph := fun _ => false
    appendGlyphsForLine := fun gs _ _ _ _ => gs
    appendVectorPathForLine := fun p _ _ _ => p
    direction := Direction.LeftToRight }

/-- Go `m[c.faceIndex]`. `splitText` only yields in-range non-negative
indices for non-sentinel chunks, so the fallback is never consulted by the
delegating loops. -/
def faceAt (m : MultiFace) (i : Int) : Face := m.getD i.toNat zeroFace

/-- The loop body of Go `MultiFace.Metrics`: keep the larger value of every
field. -/
def metricsStep (mt : Metrics) (f : Face) : Metrics :=
  let mt1 := f.Metrics
  { Height := if mt1.Height > mt.Height then mt1.Height else mt.Height
    HAscent := if mt1.HAscent > mt.HAscent then mt1.HAscent else mt.HAscent
    HDescent := if mt1.HDescent > mt.HDescent then mt1.HDescent else mt.HDescent
    Width := if mt1.Width > mt.Width then mt1.Width else mt.Width
    VAscent := if mt1.VAscent > mt.VAscent then mt1.VAscent else mt.VAscent
    VDescent := if mt1.VDescent > mt.VDescent then mt1.VDescent else mt.VDescent }

/-- Go `MultiFace.Metrics`: fold the per-field maximum over the zero record. -/
def MultiFace.Metrics (m : MultiFace) : EbitenText.Metrics :=
  m.foldl metricsStep zeroMetrics

/-- Go `MultiFace.advance`: sum the wrapped faces' advances over the
non-sentinel chunks of the split. -/
def MultiFace.advance (m : MultiFace) (text : List Char) : ℚ :=
  (MultiFace.splitText m text).foldl
    (fun a c =>
      if c.faceIndex = -1 then a
      else a + (faceAt m c.faceIndex).advance (byteSlice text c.textStartIndex c.textEndIndex))
    0

/-- Go `MultiFace.hasGlyph`: true when any wrapped face has the glyph. -/
def MultiFace.hasGlyph (m : MultiFace) (r : Char) : Bool :=
  m.any (fun f => f.hasGlyph r)

/-- Go `MultiFace.appendGlyphsForLine`. The fold state is
(glyphs, indexOffset, originX, originY); exactly as in the source, a
sentinel chunk leaves the whole state unchanged (the `continue` comes before
the `indexOffset += len(t)` update). -/
def MultiFace.appendGlyphsForLine (m : MultiFace) (glyphs : List Glyph) (line : List Char)
    (indexOffset : Int) (originX originY : ℚ) : List Glyph :=
  ((MultiFace.splitText m line).foldl
    (fun st c =>
      if c.faceIndex = -1 then st
      else
        let f := faceAt m c.faceIndex
        let t := byteSlice line c.textStartIndex c.textEndIndex
        let glyphs1 := f.appendGlyphsForLine st.1 t st.2.1 st.2.2.1 st.2.2.2
        let a := f.advance t
        if f.direction.isHorizontal then
          (glyphs1, st.2.1 + (byteLen t : Int), st.2.2.1 + a, st.2.2.2)
        else
          (glyphs1, st.2.1 + (byteLen t : Int), st.2.2.1, st.2.2.2 + a))
    (glyphs, indexOffset, originX, originY)).1

/-- Go `MultiFace.appendVectorPathForLine`: delegate per non-sentinel chunk,
moving the origin along the chunk face's direction. -/
def MultiFace.appendVectorPathForLine (m : MultiFace) (path : Path) (line : List Char)
    (originX originY : ℚ) : Path :=
  ((MultiFace.splitText m line).foldl
    (fun st c =>
      if c.faceIndex = -1 then st
      else
        let f := faceAt m c.faceIndex
        let t := byteSlice line c.textStartIndex c.textEndIndex
        let path1 := f.appendVectorPathForLine st.1 t st.2.1 st.2.2
        let a := f.advance t
        if f.direction.isHorizontal then
          (path1, st.2.1 + a, st.2.2)
        else
          (path1, st.2.1, st.2.2 + a))
    (path, originX, originY)).1

/-- Go `MultiFace.direction`: the first face's direction, left-to-right when
empty. -/
def MultiFace.direction (m : MultiFace) : Direction :=
  match m with
  | [] => Direction.LeftToRight
  | f :: _ => f.direction

/-- Metrics of the external `font.Face` (26.6 fixed-point, as Go reports
them). -/
structure FontMetrics where
  height : Int
  ascent : Int
  descent : Int

/-- Model of the external semi-standard `font.Face` consulted by `StdFace`
through `faceWithCache`: deterministic per-rune answers (spec section 6).
`glyphBounds` returns (ink bounds, advance, ok); `glyphAdvance` returns
(advance, ok). -/
structure FontSource where
  metrics : FontMetrics
  kern : Char → Char → Int
  glyphBounds : Char → Rect26_6 × Int × Bool
  glyphAdvance : Char → Int × Bool
  measureString : List Char → Int

/-- The `stdFaceGlyphImageCacheKey`: the rune and the quantized horizontal
sub-pixel offset. The vertical offset is deliberately not part of the key. -/
structure StdFaceGlyphImageCacheKey where
  rune : Char
  xoffset : Int
deriving DecidableEq

/-- Modelled from the spec: the glyph image cache (`glyphImageCache`, spec
section 4.2) is code of this repository that is not under src/. Its state
is a keyed store from cache keys to image handles; a stored `none` is the
"no ink" marker (Go caches the nil image pointer). -/
structure GlyphImageCache where
  entries : List (StdFaceGlyphImageCacheKey × Option GImg)

/-- Modelled from the spec: `glyphImageCache.getOrCreate` (spec section 4.2)
returns the cached image for the key when present; otherwise it invokes the
creation function once, stores the result under the key, and returns it. -/
def getOrCreate (c : GlyphImageCache) (key : StdFaceGlyphImageCacheKey)
    (create : Unit → Option GImg) : Option GImg × GlyphImageCache :=
  match List.lookup key c.entries with
  | some img => (img, c)
  | none =>
    let img := create ()
    (img, ⟨(key, img) :: c.entries⟩)

/-- Modelled from the spec: `adjustGranularity` is code of this repository
not under src/. Spec section 4.1 step 2: round origin.x down to a coarser
grid, by default to the whole-pixel grid, before computing the sub-pixel
offset. -/
def adjustGranularity (x : Int) : Int := andNot63 x

/-- Go `StdFace.glyphImageImpl`: a zero-width or zero-height ink box yields
the nil image ("no ink"); otherwise the external rasterizer draws the rune
at the given sub-pixel offset into a bitmap sized to the padded ceiling of
the bounds, modelled as the record of those inputs. -/
def StdFace.glyphImageImpl (r : Char) (subpixelOffset : Int × Int) (glyphBounds : Rect26_6) :
    Option GImg :=
  let w := ceil26_6 (glyphBounds.maxX - glyphBounds.minX)
  let h := ceil26_6 (glyphBounds.maxY - glyphBounds.minY)
  if w = 0 ∨ h = 0 then none
  else some ⟨r, subpixelOffset.1, subpixelOffset.2, glyphBounds⟩

/-- The result quadruple of Go `StdFace.glyphImage`. -/
structure GlyphImageResult where
  img : Option GImg
  imgX : Int
  imgY : Int
  a : Int
deriving DecidableEq

/-- Go `StdFace.glyphImage`: quantize the origin in place (`origin.X` by
`adjustGranularity`, `origin.Y` by clearing the fractional bits), build the
cache key from the quantized sub-pixel offset, consult the cache, and place
the image at the floor of (quantized origin + ink-bounds minimum). -/
def StdFace.glyphImage (f : FontSource) (cache : GlyphImageCache) (r : Char)
    (originX originY : Int) : GlyphImageResult × GlyphImageCache :=
  let oX := adjustGranularity originX
  let oY := andNot63 originY
  let bar := f.glyphBounds r
  let b := bar.1
  let a := bar.2.1
  let subX := and63 (oX + b.minX)
  let subY := and63 (oY + b.minY)
  let key : StdFaceGlyphImageCacheKey := ⟨r, subX⟩
  let res := getOrCreate cache key (fun _ => StdFace.glyphImageImpl r (subX, subY) b)
  (⟨res.1, floor26_6 (oX + b.minX), floor26_6 (oY + b.minY), a⟩, res.2)

/-- The rune loop of Go `StdFace.appendGlyphsForLine`, with the loop-local
state (byte position `i`, `prevR`, fixed-point origin) explicit; returns
the glyph list, the final `origin.X`, and the cache. -/
def StdFace.appendGlyphsLoop (f : FontSource) :
    List Char → Int → Option Char → Int → Int → Int → List Glyph → GlyphImageCache →
      List Glyph × Int × GlyphImageCache
  | [], _, _, _, originX, _, glyphs, cache => (glyphs, originX, cache)
  | r :: rest, i, prevR, indexOffset, originX, originY, glyphs, cache =>
    let originX1 :=
      match prevR with
      | some p => originX + f.kern p r
      | none => originX
    let res := StdFace.glyphImage f cache r originX1 originY
    let size := (r.utf8Size : Int)
    let glyphs1 :=
      match res.1.img with
      | some _ =>
        glyphs ++ [⟨indexOffset + i, indexOffset + i + size, res.1.img, res.1.imgX, res.1.imgY⟩]
      | none => glyphs
    StdFace.appendGlyphsLoop f rest (i + size) (some r) indexOffset (originX1 + res.1.a) originY
      glyphs1 res.2

/-- Go `StdFace.appendGlyphsForLine` (after its `copyCheck`): convert the
float origin to 26.6 fixed point and run the rune loop. -/
def StdFace.appendGlyphsForLine (f : FontSource) (cache : GlyphImageCache)
    (glyphs : List Glyph) (line : List Char) (indexOffset : Int) (originX originY : ℚ) :
    List Glyph × GlyphImageCache :=
  let res := StdFace.appendGlyphsLoop f line 0 none indexOffset
    (float64ToFixed26_6 originX) (float64ToFixed26_6 originY) glyphs cache
  (res.1, res.2.2)

/-- Go `StdFace.appendVectorPathForLine` has an empty body: the path the
caller handed in is never touched. -/
def StdFace.appendVectorPathForLine (f : FontSource) (path : Path) (line : List Char)
    (originX originY : ℚ) : Path :=
  path

/-- The message of the fatal identity-misuse abort of `StdFace.copyCheck`. -/
def copyCheckMsg : String := "text: illegal use of non-zero StdFace copied by value"

/-- Go `StdFace.copyCheck`: `s.addr != s` aborts. `addrEq` is the value of
the pointer comparison `s.addr == s`; the abort is modelled as the error
branch of `Except`. -/
def StdFace.copyCheck (addrEq : Bool) : Except String Unit :=
  if addrEq then Except.ok () else Except.error copyCheckMsg

/-- Go `StdFace.Metrics`: runs `copyCheck`, then converts the font source's
metrics; `Width`, `VAscent`, `VDescent` stay at their zero values. -/
def StdFace.MetricsE (addrEq : Bool) (f : FontSource) : Except String Metrics :=
  (StdFace.copyCheck addrEq).bind fun _ =>
    Except.ok ⟨fixed26_6ToFloat64 f.metrics.height, fixed26_6ToFloat64 f.metrics.ascent,
      fixed26_6ToFloat64 f.metrics.descent, 0, 0, 0⟩

/-- Go `StdFace.UnsafeInternal`: runs `copyCheck`, then returns the wrapped
font source. -/
def StdFace.UnsafeInternalE (addrEq : Bool) (f : FontSource) : Except String FontSource :=
  (StdFace.copyCheck addrEq).bind fun _ => Except.ok f

/-- Go `StdFace.advance`: no `copyCheck` in the source; measures the string
through the font source. -/
def StdFace.advanceE (addrEq : Bool) (f : FontSource) (text : List Char) : Except String ℚ :=
  Except.ok (fixed26_6ToFloat64 (f.measureString text))

/-- Go `StdFace.hasGlyph`: no `copyCheck` in the source; the ok bit of
`GlyphAdvance`. -/
def StdFace.hasGlyphE (addrEq : Bool) (f : FontSource) (r : Char) : Except String Bool :=
  Except.ok (f.glyphAdvance r).2

/-- Go `StdFace.appendGlyphsForLine` including its `copyCheck`. -/
def StdFace.appendGlyphsForLineE (addrEq : Bool) (f : FontSource) (cache : GlyphImageCache)
    (glyphs : List Glyph) (line : List Char) (indexOffset : Int) (originX originY : ℚ) :
    Except String (List Glyph × GlyphImageCache) :=
  (StdFace.copyCheck addrEq).bind fun _ =>
    Except.ok (StdFace.appendGlyphsForLine f cache glyphs line indexOffset originX originY)

/-- Go `StdFace.appendVectorPathForLine`: no `copyCheck` in the source, and
an empty body. -/
def StdFace.appendVectorPathForLineE (addrEq : Bool) (f : FontSource) (path : Path)
    (line : List Char) (originX originY : ℚ) : Except String Path :=
  Except.ok (StdFace.appendVectorPathForLine f path line originX originY)

/-- Go `StdFace.direction`: no `copyCheck` in the source; always
left-to-right. -/
def StdFace.directionE (addrEq : Bool) (f : FontSource) : Except String Direction :=
  Except.ok Direction.LeftToRight

/-- `x` is the maximum of the list `l`: a member and an upper bound. -/
def maxOf (x : ℚ) (l : List ℚ) : Prop := x ∈ l ∧ ∀ y ∈ l, y ≤ x

/-- All six Metrics fields are non-negative — the spec's data-model
assumption on `Metrics` (spec section 3: "all non-negative real numbers"). -/
abbrev MetricsNonneg (mt : Metrics) : Prop :=
  0 ≤ mt.Height ∧ 0 ≤ mt.HAscent ∧ 0 ≤ mt.HDescent ∧
    0 ≤ mt.Width ∧ 0 ≤ mt.VAscent ∧ 0 ≤ mt.VDescent

/-- The fold of Go `MultiFace.Metrics` restricted to a single field selected
by `g`. -/
def foldFieldMax (g : Face → ℚ) (m : List Face) (init : ℚ) : ℚ :=
  m.foldl (fun x f => if g f > x then g f else x) init

/-- The empty glyph image cache, the state a fresh `StdFace` starts from. -/
def emptyGlyphImageCache : GlyphImageCache := ⟨[]⟩

/-- Concrete face used to instantiate the metrics-aggregation theorem. -/
def mfaceA : Face :=
  { Metrics := ⟨10, 8, 2, 0, 4, 0⟩
    advance := fun t => (byteLen t : ℚ)
    hasGlyph := fun _ => true
    appendGlyphsForLine := fun gs _ _ _ _ => gs
    appendVectorPathForLine := fun p _ _ _ => p
    direction := Direction.LeftToRight }

/-- Concrete face used to instantiate the metrics-aggregation theorem. -/
def mfaceB : Face :=
  { Metrics := ⟨12, 6, 3, 1, 0, 5⟩
    advance := fun t => (byteLen t : ℚ)
    hasGlyph := fun r => r == 'B'
    appendGlyphsForLine := fun gs _ _ _ _ => gs
    appendVectorPathForLine := fun p _ _ _ => p
    direction := Direction.LeftToRight }

/-- One glyph per rune of the handed chunk, spanning
`indexOffset + (byte position of the rune inside the chunk)` — the byte
indexing a conforming single-source face (`StdFace`) performs. Used to
build a concrete face for evaluating `MultiFace.appendGlyphsForLine`. -/
def emitLoop : List Char → Nat → Int → List Glyph → List Glyph
  | [], _, _, gs => gs
  | r :: rest, i, idxOff, gs =>
    emitLoop rest (i + r.utf8Size) idxOff
      (gs ++ [⟨idxOff + (i : Int), idxOff + (i : Int) + (r.utf8Size : Int),
        some ⟨r, 0, 0, ⟨0, 0, 64, 64⟩⟩, 0, 0⟩])

/-- A concrete conforming face covering only 'B', for the failing input of
the sentinel-offset analysis. -/
def latinOnlyFace : Face :=
  { Metrics := ⟨12, 9, 3, 0, 0, 0⟩
    advance := fun t => (byteLen t : ℚ)
    hasGlyph := fun r => r == 'B'
    appendGlyphsForLine := fun gs t idxOff _ _ => emitLoop t 0 idxOff gs
    appendVectorPathForLine := fun p _ _ _ => p
    direction := Direction.LeftToRight }

/-- Concrete font source whose glyph ink bounds have `minY = 48`, for the
placement-quantization counterexample. -/
def c2Font : FontSource :=
  { metrics := ⟨64, 48, 16⟩
    kern := fun _ _ => 0
    glyphBounds := fun _ => (⟨0, 48, 64, 112⟩, 64, true)
    glyphAdvance := fun _ => (64, true)
    measureString := fun t => 64 * (t.length : Int) }

/-- Concrete font source for the identity-misuse counterexample. -/
def c3Font : FontSource :=
  { metrics := ⟨64, 48, 16⟩
    kern := fun _ _ => 0
    glyphBounds := fun _ => (⟨0, -60, 40, 4⟩, 64, true)
    glyphAdvance := fun _ => (64, true)
    measureString := fun t => 64 * (t.length : Int) }

/-- Concrete font source whose ink bounds have zero width
(`minX = maxX = 32`), for the degenerate-glyph theorem. -/
def c8Font : FontSource :=
  { metrics := ⟨64, 48, 16⟩
    kern := fun _ _ => 8
    glyphBounds := fun _ => (⟨32, 0, 32, 128⟩, 42, true)
    glyphAdvance := fun _ => (42, true)
    measureString := fun t => 42 * (t.length : Int) }

/-! Chunk coverage and maximality of `splitText`. -/

/-- Forward contiguity: the chunks' byte ranges are non-degenerate, each
chunk starts exactly where the previous one ends, the first starts at `s`,
and the last ends at `e`. This packages contiguity, non-overlap, and exact
coverage of `[s, e)` in one pass. -/
def chunksCover : Nat → List TextChunk → Nat → Prop
  | s, [], e => s = e
  | s, c :: cs, e => c.textStartIndex = s ∧ s ≤ c.textEndIndex ∧ chunksCover c.textEndIndex cs e

/-- The coverage invariant on the reversed accumulator of the split loop:
the head (the open chunk) ends at the running byte count `n`, and each
chunk starts where the next stored (earlier) one ends, down to 0. -/
def revCover : List TextChunk → Nat → Prop
  | [], n => n = 0
  | c :: cs, n => c.textEndIndex = n ∧ c.textStartIndex ≤ n ∧ revCover cs c.textStartIndex

lemma revCover_step (m : MultiFace) (chunks : List TextChunk) (r : Char) (n : Nat)
    (h : revCover chunks n) : revCover (splitTextStep m chunks r) (n + r.utf8Size) := by
  cases chunks with
  | nil =>
    simp only [revCover] at h
    subst h
    simp [splitTextStep, revCover]
  | cons c rest =>
    obtain ⟨h1, h2, h3⟩ := h
    by_cases hfi : c.faceIndex = firstFaceIndex m r
    · simp only [splitTextStep, hfi, if_pos rfl, revCover]
      exact ⟨by omega, by omega, h3⟩
    · simp only [splitTextStep, revCover, if_neg hfi]
      refine ⟨?_, ?_, ?_, ?_, h3⟩ <;> first | trivial | omega

lemma revCover_foldl (m : MultiFace) :
    ∀ (text : List Char) (chunks : List TextChunk) (n : Nat),
      revCover chunks n → revCover (text.foldl (splitTextStep m) chunks) (n + byteLen text) := by
  intro text
  induction text with
  | nil =>
    intro chunks n h
    simpa [byteLen] using h
  | cons r rest ih =>
    intro chunks n h
    have h2 := ih (splitTextStep m chunks r) (n + r.utf8Size) (revCover_step m chunks r n h)
    simpa [byteLen, Nat.add_assoc] using h2

lemma chunksCover_append (c : TextChunk) :
    ∀ (l : List TextChunk) (s : Nat), chunksCover s l c.textStartIndex →
      c.textStartIndex ≤ c.textEndIndex → chunksCover s (l ++ [c]) c.textEndIndex := by
  intro l
  induction l with
  | nil =>
    intro s h hle
    simp only [chunksCover] at h
    simp only [List.nil_append, chunksCover]
    exact ⟨by omega, by omega, by trivial⟩
  | cons d ds ih =>
    intro s h hle
    obtain ⟨h1, h2, h3⟩ := h
    exact ⟨h1, h2, ih d.textEndIndex h3 hle⟩

lemma revCover_reverse :
    ∀ (l : List TextChunk) (n : Nat), revCover l n → chunksCover 0 l.reverse n := by
  intro l
  induction l with
  | nil =>
    intro n h
    simp only [revCover] at h
    simp [chunksCover, h]
  | cons c cs ih =>
    intro n h
    obtain ⟨h1, h2, h3⟩ := h
    have hc := ih c.textStartIndex h3
    have happ := chunksCover_append c cs.reverse 0 hc (by omega)
    rw [List.reverse_cons]
    rw [h1] at happ
    exact happ

/-- C4: for every face list and input line, the chunks returned by
`MultiFace.splitText` are contiguous (each starts where the previous one
ends, the first at 0), non-overlapping, and together exactly cover
`[0, byteLen line)`; sentinel chunks take part in this coverage like any
other chunk. -/
theorem c4_splitText_cover (m : MultiFace) (text : List Char) :
    chunksCover 0 (MultiFace.splitText m text) (byteLen text) := by
  have h := revCover_foldl m text [] 0 (by simp [revCover])
  rw [Nat.zero_add] at h
  exact revCover_reverse _ _ h

lemma chain_step (m : MultiFace) (chunks : List TextChunk) (r : Char)
    (h : List.Chain' (fun a b : TextChunk => a.faceIndex ≠ b.faceIndex) chunks) :
    List.Chain' (fun a b : TextChunk => a.faceIndex ≠ b.faceIndex)
      (splitTextStep m chunks r) := by
  cases chunks with
  | nil => simp [splitTextStep]
  | cons c rest =>
    by_cases hfi : c.faceIndex = firstFaceIndex m r
    · simp only [splitTextStep, if_pos hfi]
      cases rest with
      | nil => simp
      | cons d ds =>
        rw [List.chain'_cons] at h ⊢
        exact ⟨h.1, h.2⟩
    · simp only [splitTextStep, if_neg hfi]
      rw [List.chain'_cons]
      exact ⟨fun heq => hfi heq.symm, h⟩

lemma chain_foldl (m : MultiFace) :
    ∀ (text : List Char) (chunks : List TextChunk),
      List.Chain' (fun a b : TextChunk => a.faceIndex ≠ b.faceIndex) chunks →
      List.Chain' (fun a b : TextChunk => a.faceIndex ≠ b.faceIndex)
        (text.foldl (splitTextStep m) chunks) := by
  intro text
  induction text with
  | nil => intro chunks h; exact h
  | cons r rest ih =>
    intro chunks h
    exact ih (splitTextStep m chunks r) (chain_step m chunks r h)

/-- C5: in the chunk sequence returned by `MultiFace.splitText`, no two
adjacent chunks carry the same source index (the sentinel `-1` included): a
rune whose first-available source index equals the open chunk's index
extends that chunk instead of opening a new one. -/
theorem c5_splitText_maximal (m : MultiFace) (text : List Char) :
    List.Chain' (fun a b : TextChunk => a.faceIndex ≠ b.faceIndex)
      (MultiFace.splitText m text) := by
  have h := chain_foldl m text [] (by simp)
  unfold MultiFace.splitText
  rw [List.chain'_reverse]
  exact h.imp fun a b hab => Ne.symm hab

/-! Metrics aggregation. -/

lemma foldFieldMax_init_le (g : Face → ℚ) :
    ∀ (m : List Face) (init : ℚ), init ≤ foldFieldMax g m init := by
  intro m
  induction m with
  | nil => intro init; exact le_refl _
  | cons f fs ih =>
    intro init
    have h1 : init ≤ if g f > init then g f else init := by
      by_cases h : g f > init
      · rw [if_pos h]; exact le_of_lt h
      · rw [if_neg h]
    exact le_trans h1 (ih (if g f > init then g f else init))

lemma foldFieldMax_le (g : Face → ℚ) :
    ∀ (m : List Face) (init : ℚ) (f : Face), f ∈ m → g f ≤ foldFieldMax g m init := by
  intro m
  induction m with
  | nil => intro init f hf; cases hf
  | cons f0 fs ih =>
    intro init f hf
    rcases List.mem_cons.mp hf with h | h
    · subst h
      have h1 : g f ≤ if g f > init then g f else init := by
        by_cases hgt : g f > init
        · rw [if_pos hgt]
        · rw [if_neg hgt]; exact le_of_not_lt hgt
      exact le_trans h1 (foldFieldMax_init_le g fs (if g f > init then g f else init))
    · exact ih (if g f0 > init then g f0 else init) f h

lemma foldFieldMax_mem (g : Face → ℚ) :
    ∀ (m : List Face) (init : ℚ),
      foldFieldMax g m init = init ∨ ∃ f ∈ m, foldFieldMax g m init = g f := by
  intro m
  induction m with
  | nil => intro init; exact Or.inl rfl
  | cons f0 fs ih =>
    intro init
    rcases ih (if g f0 > init then g f0 else init) with h | h
    · by_cases hgt : g f0 > init
      · right
        refine ⟨f0, List.mem_cons_self f0 fs, ?_⟩
        show foldFieldMax g fs (if g f0 > init then g f0 else init) = g f0
        rw [h, if_pos hgt]
      · left
        show foldFieldMax g fs (if g f0 > init then g f0 else init) = init
        rw [h, if_neg hgt]
    · right
      obtain ⟨f, hf, heq⟩ := h
      exact ⟨f, List.mem_cons_of_mem f0 hf, heq⟩

lemma metrics_foldl_fields :
    ∀ (m : List Face) (mt : Metrics),
      m.foldl metricsStep mt =
        ⟨foldFieldMax (fun f => f.Metrics.Height) m mt.Height,
         foldFieldMax (fun f => f.Metrics.HAscent) m mt.HAscent,
         foldFieldMax (fun f => f.Metrics.HDescent) m mt.HDescent,
         foldFieldMax (fun f => f.Metrics.Width) m mt.Width,
         foldFieldMax (fun f => f.Metrics.VAscent) m mt.VAscent,
         foldFieldMax (fun f => f.Metrics.VDescent) m mt.VDescent⟩ := by
  intro m
  induction m with
  | nil => intro mt; rfl
  | cons f fs ih =>
    intro mt
    rw [List.foldl_cons, ih]
    rfl

lemma maxOf_foldFieldMax (g : Face → ℚ) (m : List Face) (hne : m ≠ [])
    (hnn : ∀ f ∈ m, 0 ≤ g f) : maxOf (foldFieldMax g m 0) (m.map g) := by
  constructor
  · rcases foldFieldMax_mem g m 0 with h | h
    · obtain ⟨f0, fs, rfl⟩ := List.exists_cons_of_ne_nil hne
      have hle := foldFieldMax_le g (f0 :: fs) 0 f0 (List.mem_cons_self f0 fs)
      have h0 : g f0 = 0 := le_antisymm (h ▸ hle) (hnn f0 (List.mem_cons_self f0 fs))
      rw [h]
      exact List.mem_map.mpr ⟨f0, List.mem_cons_self f0 fs, h0⟩
    · obtain ⟨f, hf, heq⟩ := h
      rw [heq]
      exact List.mem_map.mpr ⟨f, hf, rfl⟩
  · intro y hy
    obtain ⟨f, hf, hfy⟩ := List.mem_map.mp hy
    rw [← hfy]
    exact foldFieldMax_le g m 0 f hf

/-- C6: for every non-empty face list with non-negative per-face metrics (the
spec's data-model invariant), `MultiFace.Metrics` is, independently for each
of the six fields, the maximum of that field over the wrapped faces; the
empty list yields the all-zero record, and `MultiFace.direction` is then
left-to-right. -/
theorem c6_metrics_fieldwise_max (m : MultiFace) (hne : m ≠ [])
    (hnn : ∀ f ∈ m, MetricsNonneg f.Metrics) :
    maxOf (MultiFace.Metrics m).Height (m.map fun f => f.Metrics.Height) ∧
    maxOf (MultiFace.Metrics m).HAscent (m.map fun f => f.Metrics.HAscent) ∧
    maxOf (MultiFace.Metrics m).HDescent (m.map fun f => f.Metrics.HDescent) ∧
    maxOf (MultiFace.Metrics m).Width (m.map fun f => f.Metrics.Width) ∧
    maxOf (MultiFace.Metrics m).VAscent (m.map fun f => f.Metrics.VAscent) ∧
    maxOf (MultiFace.Metrics m).VDescent (m.map fun f => f.Metrics.VDescent) ∧
    MultiFace.Metrics [] = zeroMetrics ∧
    MultiFace.direction [] = Direction.LeftToRight := by
  have hfields := metrics_foldl_fields m zeroMetrics
  have hH : (MultiFace.Metrics m).Height = foldFieldMax (fun f => f.Metrics.Height) m 0 := by
    show (m.foldl metricsStep zeroMetrics).Height = _
    rw [hfields]
    rfl
  have hHA : (MultiFace.Metrics m).HAscent = foldFieldMax (fun f => f.Metrics.HAscent) m 0 := by
    show (m.foldl metricsStep zeroMetrics).HAscent = _
    rw [hfields]
    rfl
  have hHD : (MultiFace.Metrics m).HDescent = foldFieldMax (fun f => f.Metrics.HDescent) m 0 := by
    show (m.foldl metricsStep zeroMetrics).HDescent = _
    rw [hfields]
    rfl
  have hW : (MultiFace.Metrics m).Width = foldFieldMax (fun f => f.Metrics.Width) m 0 := by
    show (m.foldl metricsStep zeroMetrics).Width = _
    rw [hfields]
    rfl
  have hVA : (MultiFace.Metrics m).VAscent = foldFieldMax (fun f => f.Metrics.VAscent) m 0 := by
    show (m.foldl metricsStep zeroMetrics).VAscent = _
    rw [hfields]
    rfl
  have hVD : (MultiFace.Metrics m).VDescent = foldFieldMax (fun f => f.Metrics.VDescent) m 0 := by
    show (m.foldl metricsStep zeroMetrics).VDescent = _
    rw [hfields]
    rfl
  refine ⟨?_, ?_, ?_, ?_, ?_, ?_, rfl, rfl⟩
  · rw [hH]; exact maxOf_foldFieldMax _ m hne fun f hf => (hnn f hf).1
  · rw [hHA]; exact maxOf_foldFieldMax _ m hne fun f hf => (hnn f hf).2.1
  · rw [hHD]; exact maxOf_foldFieldMax _ m hne fun f hf => (hnn f hf).2.2.1
  · rw [hW]; exact maxOf_foldFieldMax _ m hne fun f hf => (hnn f hf).2.2.2.1
  · rw [hVA]; exact maxOf_foldFieldMax _ m hne fun f hf => (hnn f hf).2.2.2.2.1
  · rw [hVD]; exact maxOf_foldFieldMax _ m hne fun f hf => (hnn f hf).2.2.2.2.2

/-- C6 witness: the theorem applied to the concrete two-face list. -/
theorem c6_metrics_fieldwise_max_witness :
    maxOf (MultiFace.Metrics [mfaceA, mfaceB]).Height
      ([mfaceA, mfaceB].map fun f => f.Metrics.Height) :=
  (c6_metrics_fieldwise_max [mfaceA, mfaceB] (by simp)
    (by
      intro f hf
      rcases List.mem_cons.mp hf with h | h
      · subst h
        exact ⟨by decide, by decide, by decide, by decide, by decide, by decide⟩
      · rcases List.mem_cons.mp h with h2 | h2
        · subst h2
          exact ⟨by decide, by decide, by decide, by decide, by decide, by decide⟩
        · cases h2)).1

/-! Advance additivity. -/

lemma foldl_skip_add (P : TextChunk → Prop) [DecidablePred P] (g : TextChunk → ℚ) :
    ∀ (l : List TextChunk) (a : ℚ),
      l.foldl (fun a c => if P c then a else a + g c) a =
        a + (l.map fun c => if P c then 0 else g c).sum := by
  intro l
  induction l with
  | nil => intro a; simp
  | cons c cs ih =>
    intro a
    rw [List.foldl_cons, ih, List.map_cons, List.sum_cons]
    by_cases h : P c
    · rw [if_pos h, if_pos h]; ring
    · rw [if_neg h, if_neg h]; ring

/-- C7: `MultiFace.advance` equals the sum, in chunk order, of each
non-sentinel chunk's source-reported advance over that chunk's substring;
sentinel chunks (`faceIndex = -1`) contribute zero. -/
theorem c7_advance_additivity (m : MultiFace) (text : List Char) :
    MultiFace.advance m text =
      ((MultiFace.splitText m text).map fun c =>
        if c.faceIndex = -1 then 0
        else (faceAt m c.faceIndex).advance
          (byteSlice text c.textStartIndex c.textEndIndex)).sum := by
  unfold MultiFace.advance
  rw [foldl_skip_add (fun c => c.faceIndex = -1)
    (fun c => (faceAt m c.faceIndex).advance (byteSlice text c.textStartIndex c.textEndIndex))]
  rw [zero_add]

/-! The sentinel-chunk byte-offset defect of `MultiFace.appendGlyphsForLine`. -/

/-- C1 (failing-input evaluation): on the line "あB" ('あ' is 3 bytes and
covered by no face, 'B' is covered by face 0) with caller offset 0, the
glyph emitted for 'B' carries byte range [0, 1), although 'B' occupies
bytes [3, 4) of the original input (second conjunct): the delegating loop
advances its running `indexOffset` only for non-sentinel chunks, so glyphs
after a sentinel chunk are shifted left by the sentinel bytes, and [0, 1)
does not even span one encoded rune of the original input. -/
theorem c1_sentinel_offset_eval :
    MultiFace.appendGlyphsForLine [latinOnlyFace] [] ['あ', 'B'] 0 0 0 =
      [⟨0, 1, some ⟨'B', 0, 0, ⟨0, 0, 64, 64⟩⟩, 0, 0⟩] ∧
    charsWithPosAux 0 ['あ', 'B'] = [(0, 'あ'), (3, 'B')] := by
  exact ⟨rfl, rfl⟩

/-! Quantized placement in `StdFace.glyphImage`. -/

/-- C2 counterexample: at origin (0, 32) with ink-bounds minimum (0, 48),
the code places the glyph at `imgY = 0` — the floor over the *quantized*
origin — while floor(un-quantized origin.y + minY) = floor((32+48)/64) = 1.
The emitted placement is therefore not the one the un-quantized origin
dictates. -/
theorem c2_counterexample :
    (StdFace.glyphImage c2Font emptyGlyphImageCache 'A' 0 32).1.imgY = 0 ∧
    floor26_6 (32 + ((c2Font.glyphBounds 'A').1).minY) = 1 := by
  exact ⟨rfl, rfl⟩

/-- C2 amended: `StdFace.glyphImage` computes the draw coordinates as
floor(*quantized* origin + ink-bounds-minimum) in each axis — the same
quantized origin that enters the cache key — and the whole result is
invariant under pre-quantizing the origin. -/
theorem c2_amended_quantized_placement (f : FontSource) (cache : GlyphImageCache) (r : Char)
    (originX originY : Int) :
    StdFace.glyphImage f cache r originX originY =
      StdFace.glyphImage f cache r (adjustGranularity originX) (andNot63 originY) ∧
    (StdFace.glyphImage f cache r originX originY).1.imgX =
      floor26_6 (adjustGranularity originX + (f.glyphBounds r).1.minX) ∧
    (StdFace.glyphImage f cache r originX originY).1.imgY =
      floor26_6 (andNot63 originY + (f.glyphBounds r).1.minY) := by
  have hX : adjustGranularity (adjustGranularity originX) = adjustGranularity originX := by
    unfold adjustGranularity andNot63
    omega
  have hY : andNot63 (andNot63 originY) = andNot63 originY := by
    unfold andNot63
    omega
  refine ⟨?_, rfl, rfl⟩
  unfold StdFace.glyphImage
  rw [hX, hY]

/-! Which operations run the identity check. -/

/-- C3 counterexample: `advance` invoked through a duplicated identity
(`s.addr == s` false) returns normally instead of raising the fatal
identity-misuse error. -/
theorem c3_counterexample :
    (StdFace.advanceE false c3Font ['A']).isOk = true ∧
    (StdFace.directionE false c3Font).isOk = true := by
  exact ⟨rfl, rfl⟩

/-- C3 amended: only `Metrics`, `UnsafeInternal` and `appendGlyphsForLine`
run `copyCheck` and raise the fatal identity-misuse error (before any other
effect) when the identity is duplicated; `advance`, `hasGlyph`,
`appendVectorPathForLine` and `direction` perform no identity check and
proceed normally. -/
theorem c3_amended_copycheck_coverage (f : FontSource) (cache : GlyphImageCache)
    (glyphs : List Glyph) (line text : List Char) (indexOffset : Int) (originX originY : ℚ)
    (r : Char) (path : Path) :
    StdFace.MetricsE false f = Except.error copyCheckMsg ∧
    StdFace.UnsafeInternalE false f = Except.error copyCheckMsg ∧
    StdFace.appendGlyphsForLineE false f cache glyphs line indexOffset originX originY =
      Except.error copyCheckMsg ∧
    StdFace.advanceE false f text = Except.ok (fixed26_6ToFloat64 (f.measureString text)) ∧
    StdFace.hasGlyphE false f r = Except.ok (f.glyphAdvance r).2 ∧
    StdFace.appendVectorPathForLineE false f path line originX originY = Except.ok path ∧
    StdFace.directionE false f = Except.ok Direction.LeftToRight := by
  exact ⟨rfl, rfl, rfl, rfl, rfl, rfl, rfl⟩

/-! Degenerate ink bounds: no image, no glyph, full advance. -/

lemma getOrCreate_none (c : GlyphImageCache) (key : StdFaceGlyphImageCacheKey)
    (create : Unit → Option GImg)
    (hstored : ∀ v, List.lookup key c.entries = some v → v = none)
    (hcreate : create () = none) :
    (getOrCreate c key create).1 = none := by
  unfold getOrCreate
  cases hl : List.lookup key c.entries with
  | none => simp [hcreate]
  | some v =>
    have hv := hstored v hl
    simp [hv]

/-- C8: for a rune whose ink bounding box has zero width or zero height
(so its padded ceiling has `w = 0` or `h = 0`), and a cache with no spurious
non-nil entry for that rune, the positioner records "no ink" (`none`) rather
than an empty bitmap, appends no Glyph record for that rune, yet still
advances `origin.x` by the rune's reported advance width — the same update
performed for visible runes. -/
theorem c8_no_ink_still_advances (f : FontSource) (cache : GlyphImageCache)
    (glyphs : List Glyph) (r : Char) (indexOffset i originX originY : Int)
    (hdeg : ceil26_6 ((f.glyphBounds r).1.maxX - (f.glyphBounds r).1.minX) = 0 ∨
      ceil26_6 ((f.glyphBounds r).1.maxY - (f.glyphBounds r).1.minY) = 0)
    (hcache : ∀ k v, List.lookup k cache.entries = some v → k.rune = r → v = none) :
    (∀ s : Int × Int, StdFace.glyphImageImpl r s (f.glyphBounds r).1 = none) ∧
    (StdFace.appendGlyphsLoop f [r] i none indexOffset originX originY glyphs cache).1 =
      glyphs ∧
    (StdFace.appendGlyphsLoop f [r] i none indexOffset originX originY glyphs cache).2.1 =
      originX + (f.glyphBounds r).2.1 := by
  have himpl : ∀ s : Int × Int, StdFace.glyphImageImpl r s (f.glyphBounds r).1 = none := by
    intro s
    simp only [StdFace.glyphImageImpl]
    rw [if_pos hdeg]
  have himg : (StdFace.glyphImage f cache r originX originY).1.img = none := by
    have h1 : (StdFace.glyphImage f cache r originX originY).1.img =
        (getOrCreate cache
          ⟨r, and63 (adjustGranularity originX + (f.glyphBounds r).1.minX)⟩
          (fun _ => StdFace.glyphImageImpl r
            (and63 (adjustGranularity originX + (f.glyphBounds r).1.minX),
             and63 (andNot63 originY + (f.glyphBounds r).1.minY))
            (f.glyphBounds r).1)).1 := rfl
    rw [h1]
    exact getOrCreate_none cache _ _ (fun v hv => hcache _ v hv rfl) (himpl _)
  refine ⟨himpl, ?_, ?_⟩
  · simp only [StdFace.appendGlyphsLoop, himg]
  · simp only [StdFace.appendGlyphsLoop, himg]
    rfl

/-- C8 witness: the theorem applied to a concrete zero-width font at the
empty cache: no glyph is appended and the origin still advances by 42. -/
theorem c8_no_ink_still_advances_witness :
    (StdFace.appendGlyphsLoop c8Font ['a'] 0 none 0 0 0 [] emptyGlyphImageCache).1 = [] ∧
    (StdFace.appendGlyphsLoop c8Font ['a'] 0 none 0 0 0 [] emptyGlyphImageCache).2.1 =
      0 + 42 := by
  have h := c8_no_ink_still_advances c8Font emptyGlyphImageCache [] 'a' 0 0 0 0
    (Or.inl (by decide))
    (by intro k v hv _; simp [List.lookup, emptyGlyphImageCache] at hv)
  exact ⟨h.2.1, h.2.2⟩

/-! The vector-path operation of `StdFace` is a no-op. -/

/-- C10: `StdFace.appendVectorPathForLine` leaves the given path completely
unchanged for every path, line, and origin — the single-source positioner
never appends vector outline data. -/
theorem c10_appendVectorPath_unchanged (f : FontSource) (path : Path) (line : List Char)
    (originX originY : ℚ) :
    StdFace.appendVectorPathForLine f path line originX originY = path := rfl

end EbitenText
